import Mathlib

/-!
Shallow embedding of `scripts/metrics/analyze-logs.py` (CloudFront log analyzer):
the record parser `parse_log_line`, the loader's date filtering from `load_logs`,
the visitor identity resolver `get_visitor_id`, and the metrics aggregator
`analyze_logs`, together with proofs of the specification claims about them.

Strings are modelled through their character lists (`String.data`); Python's
string comparison, `str.split('\t')`, `str.strip()`, substring membership and
the two regular expressions used by the script are embedded as executable
functions on `List Char`.
-/

/-- Python `str.strip()` whitespace set restricted to the ASCII whitespace
characters (space, tab, newline, carriage return, vertical tab, form feed). -/
def isPySpace (c : Char) : Bool :=
  c == ' ' || c == '\t' || c == '\n' || c == '\r' || c == '\x0b' || c == '\x0c'

/-- Python `line.strip()` on the character list of the line. -/
def pyStrip (l : List Char) : List Char :=
  ((l.dropWhile isPySpace).reverse.dropWhile isPySpace).reverse

/-- Python `s.split('\t')`: split on every tab, keeping empty segments; the
empty string yields the single segment `[]`. -/
def splitTab : List Char → List (List Char)
  | [] => [[]]
  | c :: cs =>
    if c = '\t' then [] :: splitTab cs
    else
      match splitTab cs with
      | [] => [[c]]
      | p :: ps => (c :: p) :: ps

/-- Python `line.startswith('#')` (on the raw, unstripped line). -/
def startsWithHash (l : List Char) : Bool :=
  match l with
  | '#' :: _ => true
  | _ => false

/-- Lexicographic order on character lists by code point; this is Python's
`<` on strings (a strict prefix is smaller). -/
def listLt : List Char → List Char → Bool
  | [], [] => false
  | [], _ :: _ => true
  | _ :: _, [] => false
  | a :: as, b :: bs => if a < b then true else if b < a then false else listLt as bs

/-- Python string comparison `a < b`. -/
def strLt (a b : String) : Bool := listLt a.data b.data

/-- The fixed 33-field CloudFront schema `FIELDS` of `analyze-logs.py`. -/
def FIELDS : List String :=
  ["date", "time", "edge_location", "bytes", "client_ip", "method", "host",
   "uri_stem", "status", "referer", "user_agent", "query_string", "cookie",
   "edge_result_type", "request_id", "host_header", "protocol", "cs_bytes",
   "time_taken", "forwarded_for", "ssl_protocol", "ssl_cipher",
   "edge_response_result_type", "protocol_version", "fle_status",
   "fle_encrypted_fields", "c_port", "time_to_first_byte",
   "edge_detailed_result_type", "content_type", "content_len",
   "range_start", "range_end"]

/-- The tab-separated parts of the stripped line, `line.strip().split('\t')`. -/
def pyParts (line : String) : List String :=
  (splitTab (pyStrip line.data)).map String.mk

/-- Embedding of `parse_log_line`: reject comment lines and lines with fewer
than 10 tab-separated parts, otherwise build the field-name/value mapping
`{FIELDS[i]: parts[i] if i < len(parts) else '' for i in range(len(FIELDS))}`
as an association list in schema order. -/
def parse_log_line (line : String) : Option (List (String × String)) :=
  if startsWithHash line.data then none
  else
    let parts := pyParts line
    if parts.length < 10 then none
    else some ((List.range FIELDS.length).map (fun i => (FIELDS.getD i "", parts.getD i "")))

/-- The `date` field of a parsed record (`record['date']`). -/
def recordDate (r : List (String × String)) : String :=
  (List.lookup "date" r).getD ""

/-- Embedding of the record-filtering core of `load_logs`. File enumeration and
I/O are outside the embedding: `lines` is the concatenated sequence of input
lines, and `today_minus` abstracts the ambient-clock computation
`(datetime.now() - timedelta(days=d)).strftime('%Y-%m-%d')`. Mirrors the
Python truthiness test `if days:` (false for `None` and for `0`) and the
per-record test `if cutoff_date and record['date'] < cutoff_date: continue`. -/
def load_lines (today_minus : Nat → String) (days : Option Nat)
    (lines : List String) : List (List (String × String)) :=
  let cutoff_date : Option String :=
    match days with
    | some d => if d = 0 then none else some (today_minus d)
    | none => none
  lines.filterMap (fun line =>
    match parse_log_line line with
    | some record =>
      match cutoff_date with
      | some c => if strLt (recordDate record) c then none else some record
      | none => some record
    | none => none)

/-- A parsed record as consumed by the aggregator: the fields of the 33-field
mapping that `analyze_logs` actually reads. -/
structure Record where
  date : String
  client_ip : String
  uri_stem : String
  status : String
  user_agent : String
  cookie : String
  edge_location : String
deriving DecidableEq

/-- The regex character class `[a-f0-9-]` of `get_visitor_id`'s pattern
`mid=([a-f0-9-]+)` (lowercase hexadecimal digits and dashes). -/
def isHexDash (c : Char) : Bool :=
  ('a' ≤ c && c ≤ 'f') || ('0' ≤ c && c ≤ '9') || c == '-'

/-- Attempt to match `mid=([a-f0-9-]+)` at the head of the list: the literal
`mid=` followed by a non-empty greedy run of `[a-f0-9-]` characters. -/
def matchMidAt (l : List Char) : Option (List Char) :=
  match l with
  | a :: b :: c :: d :: rest =>
    if a = 'm' ∧ b = 'i' ∧ c = 'd' ∧ d = '=' then
      let run := rest.takeWhile isHexDash
      if run.isEmpty then none else some run
    else none
  | _ => none

/-- Embedding of `re.search(r'mid=([a-f0-9-]+)', cookie)`: try the pattern at
each position from the left and return the first (greedy) group. -/
def searchMid : List Char → Option (List Char)
  | [] => none
  | c :: cs =>
    match matchMidAt (c :: cs) with
    | some r => some r
    | none => searchMid cs

/-- Embedding of `get_visitor_id`: the cookie-embedded `mid` identifier if the
regex matches, otherwise the client address. -/
def get_visitor_id (r : Record) : String :=
  match searchMid r.cookie.data with
  | some id => String.mk id
  | none => r.client_ip

/-- A record with the given cookie and client address and empty remaining
fields, for stating resolver properties. -/
def mkCookieRec (cookie ip : String) : Record :=
  { date := "", client_ip := ip, uri_stem := "", status := "", user_agent := "",
    cookie := cookie, edge_location := "" }

/-- Python substring membership `sub in s` on character lists. -/
def containsSub : List Char → List Char → Bool
  | [], sub => sub.isEmpty
  | c :: rest, sub => sub.isPrefixOf (c :: rest) || containsSub rest sub

/-- Embedding of the browser classification branch of `analyze_logs`
(lines 141-155); `str.lower` is modelled by `Char.toLower` on each character. -/
def classify_browser (ua : String) : String :=
  if containsSub ua.data "Chrome".data then "Chrome"
  else if containsSub ua.data "Firefox".data then "Firefox"
  else if containsSub ua.data "Safari".data && !containsSub ua.data "Chrome".data then "Safari"
  else if containsSub ua.data "Edge".data then "Edge"
  else if containsSub (ua.data.map Char.toLower) "bot".data
       || containsSub (ua.data.map Char.toLower) "crawler".data then "Bot"
  else "Other"

/-- Python `r['status'].startswith(('2', '3'))`. -/
def statusSuccess (s : String) : Bool :=
  match s.data with
  | c :: _ => c == '2' || c == '3'
  | [] => false

/-- Python's `$` anchor also matches just before one trailing newline; this
drops that newline if present. -/
def stripDollarNewline (l : List Char) : List Char :=
  if l.getLast? = some '\n' then l.dropLast else l

/-- A non-empty run of `[a-f0-9-]` characters. -/
def eventIdOk (l : List Char) : Bool := !l.isEmpty && l.all isHexDash

/-- Core of `re.match(r'^/events?/[a-f0-9-]+$', s)` after `$`-adjustment. -/
def eventPathCore : List Char → Bool
  | '/' :: 'e' :: 'v' :: 'e' :: 'n' :: 't' :: rest =>
    (match rest with
     | '/' :: ids => eventIdOk ids
     | 's' :: '/' :: ids => eventIdOk ids
     | _ => false)
  | _ => false

/-- Embedding of `event_pattern.match(r['uri_stem'])`. -/
def event_match (s : String) : Bool := eventPathCore (stripDollarNewline s.data)

/-- Python `r['uri_stem'].startswith('/api/')`. -/
def apiMatch (s : String) : Bool := "/api/".data.isPrefixOf s.data

/-- Python `r['uri_stem'].startswith('/api/events/geocode')`. -/
def geocodeMatch (s : String) : Bool := "/api/events/geocode".data.isPrefixOf s.data

/-- Embedding of `visit_pattern.search(r['uri_stem'])` for
`re.compile(r'/(visit|register)$')`: the path ends with `/visit` or
`/register` (modulo the `$`-before-trailing-newline rule). -/
def visit_match (s : String) : Bool :=
  "/visit".data.isSuffixOf (stripDollarNewline s.data)
  || "/register".data.isSuffixOf (stripDollarNewline s.data)

/-- A Python `set` built by iterated insertion, modelled as a duplicate-free
list; only its size is consumed by the aggregator. -/
def pySet (l : List String) : List String :=
  l.foldl (fun s a => if a ∈ s then s else a :: s) []

/-- Size of the set of values of `l` (`len(set(l))`). -/
def uniqueCount (l : List String) : Nat := (pySet l).length

/-- Update-or-append step of a Python `defaultdict` keyed by strings: bump the
entry for `k` if present (dict insertion order is preserved), otherwise append
a fresh entry `(k, ini)` at the end. -/
def updAssoc (k : String) (ini : β) (upd : β → β) :
    List (String × β) → List (String × β)
  | [] => [(k, ini)]
  | (k', v) :: rest =>
    if k' = k then (k', upd v) :: rest else (k', v) :: updAssoc k ini upd rest

/-- A `for r in records: dict[key(r)] = upd(...)` accumulation loop over a
`defaultdict`, producing the association list in key-first-encounter order. -/
def groupFold (key : α → String) (ini : α → β) (upd : α → β → β) (l : List α) :
    List (String × β) :=
  l.foldl (fun acc a => updAssoc (key a) (ini a) (upd a) acc) []

/-- Insertion step of a stable sort: place `x` before the first element `y`
with `le x y`. -/
def insertDesc (le : α → α → Bool) (x : α) : List α → List α
  | [] => [x]
  | y :: ys => if le x y then x :: y :: ys else y :: insertDesc le x ys

/-- Stable insertion sort; extensionally equal to Python's stable `sorted`
for any total preorder `le` (stable-sort outputs are unique). -/
def sortStable (le : α → α → Bool) : List α → List α
  | [] => []
  | x :: xs => insertDesc le x (sortStable le xs)

/-- Index of the first occurrence of `x` in `l` (length of `l` if absent). -/
def firstIdx : List String → String → Nat
  | [], _ => 0
  | k :: rest, x => if k = x then 0 else firstIdx rest x + 1

/-- Python `min(r['date'] for r in records)` (empty string on no records;
`analyze_logs` only evaluates it on a non-empty list). -/
def dateMin (records : List Record) : String :=
  match records with
  | [] => ""
  | r :: rest => rest.foldl (fun m x => if strLt x.date m then x.date else m) r.date

/-- Python `max(r['date'] for r in records)`. -/
def dateMax (records : List Record) : String :=
  match records with
  | [] => ""
  | r :: rest => rest.foldl (fun m x => if strLt m x.date then x.date else m) r.date

/-- Initial daily-traffic cell for a record's date: one request and its
visitor identifier. -/
def dailyIni (r : Record) : Nat × List String := (1, [get_visitor_id r])

/-- Daily-traffic update: one more request, and the visitor identifier added
to the per-date visitor set. -/
def dailyUpd (r : Record) (b : Nat × List String) : Nat × List String :=
  (b.1 + 1, if get_visitor_id r ∈ b.2 then b.2 else get_visitor_id r :: b.2)

/-- The `daily_traffic` defaultdict of `analyze_logs`. -/
def dailyTraffic (records : List Record) : List (String × Nat × List String) :=
  groupFold Record.date dailyIni dailyUpd records

/-- The `daily_stats` mapping: daily traffic sorted by ascending date, each
cell reduced to (requests, distinct visitor count). -/
def daily_stats_of (records : List Record) : List (String × Nat × Nat) :=
  (sortStable (fun a b => !strLt b.1 a.1) (dailyTraffic records)).map
    (fun p => (p.1, p.2.1, p.2.2.length))

/-- Python `sorted(pairs, key=lambda x: -x[1])`: stable sort on descending
count. -/
def countDesc (l : List (String × Nat)) : List (String × Nat) :=
  sortStable (fun a b => decide (b.2 ≤ a.2)) l

/-- The `page_counts` defaultdict: occurrences of each path, keys in
first-encounter order. -/
def page_counts (records : List Record) : List (String × Nat) :=
  groupFold Record.uri_stem (fun _ => 1) (fun _ n => n + 1) records

/-- The `top_pages` list: the 15 highest-count paths. -/
def top_pages_of (records : List Record) : List (String × Nat) :=
  (countDesc (page_counts records)).take 15

/-- The `edge_counts` defaultdict over edge locations. -/
def edge_counts (records : List Record) : List (String × Nat) :=
  groupFold Record.edge_location (fun _ => 1) (fun _ n => n + 1) records

/-- The `top_edges` list: the 10 highest-count edge locations. -/
def top_edges_of (records : List Record) : List (String × Nat) :=
  (countDesc (edge_counts records)).take 10

/-- The `browser_counts` defaultdict over classified user agents. -/
def browser_counts (records : List Record) : List (String × Nat) :=
  groupFold (fun r => classify_browser r.user_agent) (fun _ => 1) (fun _ n => n + 1) records

/-- The `browsers` mapping, sorted by descending count. -/
def browsers_of (records : List Record) : List (String × Nat) :=
  countDesc (browser_counts records)

/-- The metrics report returned by `analyze_logs` on a non-empty record list,
flattened: field names follow the nested dict keys of the Python return value
(`summary`, `page_views`, `api_usage`, `external_clicks`, `daily_stats`,
`top_pages`, `top_edge_locations`, `browsers`). -/
structure Report where
  total_requests : Nat
  unique_visitors : Nat
  successful_requests : Nat
  date_start : String
  date_end : String
  homepage_total : Nat
  homepage_unique : Nat
  event_details_total : Nat
  event_details_unique : Nat
  unique_events_viewed : Nat
  total_api_calls : Nat
  calendar_requests : Nat
  location_searches : Nat
  visit_store_total : Nat
  visit_store_unique : Nat
  external_clicks_note : Option String
  daily_stats : List (String × Nat × Nat)
  top_pages : List (String × Nat)
  top_edge_locations : List (String × Nat)
  browsers : List (String × Nat)
deriving DecidableEq

/-- Result of `analyze_logs`: either the error dict `{'error': ...}` or the
metrics report. -/
inductive AnalyzeResult where
  | error (msg : String)
  | ok (report : Report)
deriving DecidableEq

/-- The metrics computation of `analyze_logs` on a (non-empty) record list. -/
def buildReport (records : List Record) : Report :=
  let successful := records.filter (fun r => statusSuccess r.status)
  let homepage := records.filter (fun r => r.uri_stem == "/" || r.uri_stem == "/index.html")
  let event_pages := records.filter (fun r => event_match r.uri_stem)
  let api_calls := records.filter (fun r => apiMatch r.uri_stem)
  let calendar_api := api_calls.filter (fun r => r.uri_stem == "/api/events")
  let geocode_api := api_calls.filter (fun r => geocodeMatch r.uri_stem)
  let visit_clicks := records.filter (fun r => visit_match r.uri_stem)
  { total_requests := records.length
    unique_visitors := uniqueCount (records.map get_visitor_id)
    successful_requests := successful.length
    date_start := dateMin records
    date_end := dateMax records
    homepage_total := homepage.length
    homepage_unique := uniqueCount (homepage.map get_visitor_id)
    event_details_total := event_pages.length
    event_details_unique := uniqueCount (event_pages.map get_visitor_id)
    unique_events_viewed := uniqueCount (event_pages.map Record.uri_stem)
    total_api_calls := api_calls.length
    calendar_requests := calendar_api.length
    location_searches := geocode_api.length
    visit_store_total := visit_clicks.length
    visit_store_unique := uniqueCount (visit_clicks.map get_visitor_id)
    external_clicks_note :=
      if visit_clicks.isEmpty then some "Requires /visit tracking endpoint" else none
    daily_stats := daily_stats_of records
    top_pages := top_pages_of records
    top_edge_locations := top_edges_of records
    browsers := browsers_of records }

/-- Embedding of `analyze_logs`: the error marker on an empty record list
(`if not records: return {'error': 'No log records found'}`), the metrics
report otherwise. -/
def analyze_logs (records : List Record) : AnalyzeResult :=
  if records.isEmpty then .error "No log records found" else .ok (buildReport records)

/-- A well-formed 10-part log line used to instantiate parser claims. -/
def demo_line10 : String := "a\tb\tc\td\te\tf\tg\th\ti\tj"

/-- A fixed stand-in for the ambient-clock date arithmetic: every day count
maps to the run date string 2026-10-12 (used to instantiate loader claims). -/
def demo_today_minus : Nat → String := fun _ => "2026-10-12"

/-- A 10-field log line dated long before the demo cutoff date. -/
def demo_old_line : String := "2020-01-01\tb\tc\td\te\tf\tg\th\ti\tj"

/-- Demo record: homepage hit from a Chrome browser with a mid cookie. -/
def demo_rec1 : Record :=
  { date := "2026-10-01", client_ip := "1.2.3.4", uri_stem := "/", status := "200",
    user_agent := "Mozilla/5.0 Chrome/99 Safari/537.36", cookie := "mid=ab12",
    edge_location := "SFO5" }

/-- Demo record: calendar API call without a cookie. -/
def demo_rec2 : Record :=
  { date := "2026-10-02", client_ip := "5.6.7.8", uri_stem := "/api/events", status := "200",
    user_agent := "curl/8.0", cookie := "", edge_location := "IAD12" }

/-- Demo record: homepage miss from a bot, same date as the first record. -/
def demo_rec3 : Record :=
  { date := "2026-10-01", client_ip := "9.9.9.9", uri_stem := "/", status := "404",
    user_agent := "GoogleBot", cookie := "", edge_location := "SFO5" }

/-- Demo record sequence for instantiating aggregator claims. -/
def demo_records : List Record := [demo_rec1, demo_rec2, demo_rec3]

/-- Demo record whose path ends in /visit. -/
def demo_rec_visit : Record :=
  { date := "2026-10-03", client_ip := "2.2.2.2", uri_stem := "/store/visit", status := "302",
    user_agent := "Mozilla", cookie := "mid=ff", edge_location := "LHR3" }

theorem range_map_getD (l : List α) (d : α) :
    (List.range l.length).map (fun i => l.getD i d) = l := by
  induction l with
  | nil => rfl
  | cons x xs ih =>
    rw [List.length_cons, List.range_succ_eq_map, List.map_cons, List.map_map]
    have hfun : List.map ((fun i => (x :: xs).getD i d) ∘ Nat.succ) (List.range xs.length)
        = List.map (fun i => xs.getD i d) (List.range xs.length) := by
      apply List.map_congr_left
      intro i _
      simp [Function.comp, List.getD_cons_succ]
    rw [hfun, ih]
    simp [List.getD_cons_zero]

/-- C1: a line that does not start with `#` and whose stripped form splits on
tabs into at least 10 parts parses to a mapping whose keys are exactly the 33
schema field names in order, the i-th name mapped to the i-th part when
available and to the empty string otherwise. -/
theorem parse_c1 (line : String)
    (h1 : startsWithHash line.data = false)
    (h2 : 10 ≤ (pyParts line).length) :
    ∃ m, parse_log_line line = some m ∧
      m.map Prod.fst = FIELDS ∧
      m.length = 33 ∧
      ∀ i (hi : i < m.length),
        (m.get ⟨i, hi⟩).2 =
          if hp : i < (pyParts line).length then (pyParts line).get ⟨i, hp⟩ else "" := by
  have h2' : ¬ (pyParts line).length < 10 := by omega
  refine ⟨(List.range FIELDS.length).map
    (fun i => (FIELDS.getD i "", (pyParts line).getD i "")), ?_, ?_, ?_, ?_⟩
  · simp [parse_log_line, h1, h2']
  · rw [List.map_map]
    rw [show (Prod.fst ∘ fun i => (FIELDS.getD i "", (pyParts line).getD i ""))
        = (fun i => FIELDS.getD i "") from rfl]
    exact range_map_getD FIELDS ""
  · rw [List.length_map, List.length_range]
    rfl
  · intro i hi
    rw [List.get_eq_getElem, List.getElem_map, List.getElem_range]
    by_cases hp : i < (pyParts line).length
    · simp only [hp, dif_pos]
      rw [List.getD_eq_getElem _ _ hp, List.get_eq_getElem]
    · simp only [hp, dif_neg, not_false_iff]
      exact List.getD_eq_default _ _ (Nat.not_lt.mp hp)

theorem parse_c1_witness :
    startsWithHash demo_line10.data = false ∧ 10 ≤ (pyParts demo_line10).length ∧
      (∃ m, parse_log_line demo_line10 = some m ∧
        m.map Prod.fst = FIELDS ∧
        m.length = 33 ∧
        ∀ i (hi : i < m.length),
          (m.get ⟨i, hi⟩).2 =
            if hp : i < (pyParts demo_line10).length then (pyParts demo_line10).get ⟨i, hp⟩
            else "") :=
  ⟨by decide, by decide, parse_c1 demo_line10 (by decide) (by decide)⟩

/-- C2: a line starting with `#`, and a line whose stripped form has fewer
than 10 tab-separated parts, both produce no record (the parser returns
`none`; the embedding is a total function, so no error is possible). -/
theorem parse_c2 (line : String) :
    (startsWithHash line.data = true → parse_log_line line = none) ∧
    ((pyParts line).length < 10 → parse_log_line line = none) := by
  constructor
  · intro h
    simp [parse_log_line, h]
  · intro h
    by_cases h1 : startsWithHash line.data
    · simp [parse_log_line, h1]
    · simp [parse_log_line, h1, h]

theorem parse_c2_witness :
    parse_log_line "#Version: 1.0" = none ∧ parse_log_line "a\tb" = none :=
  ⟨(parse_c2 "#Version: 1.0").1 (by decide), (parse_c2 "a\tb").2 (by decide)⟩

/-- C6: on the empty record sequence the aggregator returns the explicit
error marker `{'error': 'No log records found'}` and no metrics. -/
theorem analyze_empty_c6 :
    analyze_logs [] = AnalyzeResult.error "No log records found" := rfl

theorem head_dropWhile_false (p : α → Bool) :
    ∀ (l : List α) (c : α), (l.dropWhile p).head? = some c → p c = false := by
  intro l
  induction l with
  | nil =>
    intro c h
    simp [List.dropWhile] at h
  | cons a l ih =>
    intro c h
    rw [List.dropWhile_cons] at h
    by_cases hp : p a
    · rw [if_pos hp] at h
      exact ih c h
    · rw [if_neg hp] at h
      simp only [List.head?_cons, Option.some.injEq] at h
      rw [← h]
      exact Bool.eq_false_iff.mpr hp

theorem matchMidAt_some {l r : List Char} (h : matchMidAt l = some r) :
    ∃ rest, l = 'm' :: 'i' :: 'd' :: '=' :: rest ∧
      r = rest.takeWhile isHexDash ∧ r ≠ [] := by
  rcases l with _ | ⟨a, _ | ⟨b, _ | ⟨c, _ | ⟨d, rest⟩⟩⟩⟩
  · exact absurd h (by simp [matchMidAt])
  · exact absurd h (by simp [matchMidAt])
  · exact absurd h (by simp [matchMidAt])
  · exact absurd h (by simp [matchMidAt])
  · simp only [matchMidAt] at h
    by_cases h1 : a = 'm' ∧ b = 'i' ∧ c = 'd' ∧ d = '='
    · rw [if_pos h1] at h
      by_cases h2 : (List.takeWhile isHexDash rest).isEmpty = true
      · rw [if_pos h2] at h
        exact absurd h (by simp)
      · rw [if_neg h2] at h
        obtain ⟨ha, hb, hc, hd⟩ := h1
        subst ha; subst hb; subst hc; subst hd
        have hr : List.takeWhile isHexDash rest = r := Option.some.inj h
        refine ⟨rest, rfl, hr.symm, ?_⟩
        intro hnil
        rw [hr, hnil] at h2
        simp at h2
    · rw [if_neg h1] at h
      exact absurd h (by simp)

theorem searchMid_some : ∀ {l id : List Char}, searchMid l = some id →
    ∃ pre suf, l = pre ++ 'm' :: 'i' :: 'd' :: '=' :: (id ++ suf) ∧
      id ≠ [] ∧ (∀ ch ∈ id, isHexDash ch = true) ∧
      (∀ ch, suf.head? = some ch → isHexDash ch = false) := by
  intro l
  induction l with
  | nil =>
    intro id h
    simp [searchMid] at h
  | cons c cs ih =>
    intro id h
    rw [searchMid] at h
    cases hm : matchMidAt (c :: cs) with
    | some r =>
      rw [hm] at h
      have hrid : r = id := Option.some.inj h
      subst hrid
      obtain ⟨rest, hl, hr, hne⟩ := matchMidAt_some hm
      refine ⟨[], rest.dropWhile isHexDash, ?_, hne, ?_, ?_⟩
      · rw [List.nil_append, hl]
        have : rest = r ++ rest.dropWhile isHexDash := by
          rw [hr, List.takeWhile_append_dropWhile]
        rw [← this]
      · intro ch hch
        rw [hr] at hch
        exact List.mem_takeWhile_imp hch
      · intro ch hch
        exact head_dropWhile_false isHexDash rest ch hch
    | none =>
      rw [hm] at h
      obtain ⟨pre, suf, h1, h2, h3, h4⟩ := ih h
      exact ⟨c :: pre, suf, by rw [List.cons_append, ← h1], h2, h3, h4⟩

theorem searchMid_isSome : ∀ (pre : List Char) (c : Char) (rest : List Char),
    isHexDash c = true →
    (searchMid (pre ++ 'm' :: 'i' :: 'd' :: '=' :: c :: rest)).isSome = true := by
  intro pre
  induction pre with
  | nil =>
    intro c rest hc
    rw [List.nil_append]
    have hrun : (c :: rest).takeWhile isHexDash = c :: rest.takeWhile isHexDash := by
      rw [List.takeWhile_cons, if_pos hc]
    have hm : matchMidAt ('m' :: 'i' :: 'd' :: '=' :: c :: rest) =
        some ((c :: rest).takeWhile isHexDash) := by
      simp only [matchMidAt]
      simp [hrun]
    rw [searchMid, hm]
    simp
  | cons x pre ih =>
    intro c rest hc
    rw [List.cons_append, searchMid]
    cases hm : matchMidAt (x :: (pre ++ 'm' :: 'i' :: 'd' :: '=' :: c :: rest)) with
    | some r => simp
    | none => exact ih c rest hc

/-- C3: the visitor identity resolver. If the cookie contains `mid=` followed
by at least one `[a-f0-9-]` character, the result is the non-empty matched id
portion sitting right after an occurrence of `mid=` in the cookie; otherwise
it is the client address. The result depends only on the cookie and
client-address fields, and a cookie carrying `mid=abc123-def456` resolves to
`abc123-def456` for every client address. -/
theorem visitor_id_c3 (r : Record) :
    ((∃ pre c rest, r.cookie.data = pre ++ 'm' :: 'i' :: 'd' :: '=' :: c :: rest ∧
        isHexDash c = true) →
      ∃ id, get_visitor_id r = String.mk id ∧ id ≠ [] ∧
        (∀ ch ∈ id, isHexDash ch = true) ∧
        ∃ pre suf, r.cookie.data = pre ++ 'm' :: 'i' :: 'd' :: '=' :: (id ++ suf)) ∧
    ((¬ ∃ pre c rest, r.cookie.data = pre ++ 'm' :: 'i' :: 'd' :: '=' :: c :: rest ∧
        isHexDash c = true) →
      get_visitor_id r = r.client_ip) ∧
    (∀ r2 : Record, r.cookie = r2.cookie → r.client_ip = r2.client_ip →
      get_visitor_id r = get_visitor_id r2) ∧
    (∀ ip : String,
      get_visitor_id (mkCookieRec "mid=abc123-def456" ip) = "abc123-def456" ∧
      get_visitor_id (mkCookieRec "session=xyz; mid=abc123-def456" ip) = "abc123-def456") := by
  refine ⟨?_, ?_, ?_, ?_⟩
  · rintro ⟨pre, c, rest, hck, hc⟩
    have hsome : (searchMid r.cookie.data).isSome = true := by
      rw [hck]
      exact searchMid_isSome pre c rest hc
    obtain ⟨id, hid⟩ := Option.isSome_iff_exists.mp hsome
    obtain ⟨pre', suf', h1, h2, h3, _h4⟩ := searchMid_some hid
    refine ⟨id, ?_, h2, h3, pre', suf', h1⟩
    unfold get_visitor_id
    rw [hid]
  · intro hno
    unfold get_visitor_id
    cases hs : searchMid r.cookie.data with
    | some id =>
      exfalso
      obtain ⟨pre, suf, h1, h2, h3, _h4⟩ := searchMid_some hs
      rcases id with _ | ⟨c0, id'⟩
      · exact h2 rfl
      · exact hno ⟨pre, c0, id' ++ suf, by simpa using h1, h3 c0 (by simp)⟩
    | none => rfl
  · intro r2 hck hip
    unfold get_visitor_id
    rw [hck, hip]
  · intro ip
    constructor
    · unfold get_visitor_id mkCookieRec
      have hs : searchMid ("mid=abc123-def456" : String).data =
          some ("abc123-def456" : String).data := by decide
      rw [hs]
    · unfold get_visitor_id mkCookieRec
      have hs : searchMid ("session=xyz; mid=abc123-def456" : String).data =
          some ("abc123-def456" : String).data := by decide
      rw [hs]

theorem visitor_id_c3_witness :
    ∃ id, get_visitor_id (mkCookieRec "x=1; mid=ff00" "7.7.7.7") = String.mk id ∧ id ≠ [] ∧
      (∀ ch ∈ id, isHexDash ch = true) ∧
      ∃ pre suf, (mkCookieRec "x=1; mid=ff00" "7.7.7.7").cookie.data =
        pre ++ 'm' :: 'i' :: 'd' :: '=' :: (id ++ suf) :=
  (visitor_id_c3 (mkCookieRec "x=1; mid=ff00" "7.7.7.7")).1
    ⟨['x', '=', '1', ';', ' '], 'f', ['f', '0', '0'], by decide, by decide⟩

/-- C4: the browser classification assigns exactly one of the six labels by
the ordered substring precedence Chrome, Firefox, Safari (and not Chrome),
Edge, case-insensitive bot/crawler, Other; a user agent containing both
Chrome and Safari is classified Chrome and never Safari. -/
theorem browsers_c4 (ua : String) :
    (classify_browser ua = "Chrome" ∨ classify_browser ua = "Firefox" ∨
     classify_browser ua = "Safari" ∨ classify_browser ua = "Edge" ∨
     classify_browser ua = "Bot" ∨ classify_browser ua = "Other") ∧
    (containsSub ua.data "Chrome".data = true → classify_browser ua = "Chrome") ∧
    (containsSub ua.data "Chrome".data = false →
      containsSub ua.data "Firefox".data = true → classify_browser ua = "Firefox") ∧
    (containsSub ua.data "Chrome".data = false →
      containsSub ua.data "Firefox".data = false →
      containsSub ua.data "Safari".data = true → classify_browser ua = "Safari") ∧
    (containsSub ua.data "Chrome".data = false →
      containsSub ua.data "Firefox".data = false →
      containsSub ua.data "Safari".data = false →
      containsSub ua.data "Edge".data = true → classify_browser ua = "Edge") ∧
    (containsSub ua.data "Chrome".data = false →
      containsSub ua.data "Firefox".data = false →
      containsSub ua.data "Safari".data = false →
      containsSub ua.data "Edge".data = false →
      (containsSub (ua.data.map Char.toLower) "bot".data = true ∨
       containsSub (ua.data.map Char.toLower) "crawler".data = true) →
      classify_browser ua = "Bot") ∧
    (containsSub ua.data "Chrome".data = false →
      containsSub ua.data "Firefox".data = false →
      containsSub ua.data "Safari".data = false →
      containsSub ua.data "Edge".data = false →
      containsSub (ua.data.map Char.toLower) "bot".data = false →
      containsSub (ua.data.map Char.toLower) "crawler".data = false →
      classify_browser ua = "Other") ∧
    (containsSub ua.data "Chrome".data = true →
      containsSub ua.data "Safari".data = true →
      classify_browser ua = "Chrome" ∧ classify_browser ua ≠ "Safari") := by
  refine ⟨?_, ?_, ?_, ?_, ?_, ?_, ?_, ?_⟩
  · unfold classify_browser
    split_ifs <;> simp
  · intro h
    simp [classify_browser, h]
  · intro h1 h2
    simp [classify_browser, h1, h2]
  · intro h1 h2 h3
    simp [classify_browser, h1, h2, h3]
  · intro h1 h2 h3 h4
    simp [classify_browser, h1, h2, h3, h4]
  · intro h1 h2 h3 h4 h5
    rcases h5 with h5 | h5 <;> simp [classify_browser, h1, h2, h3, h4, h5]
  · intro h1 h2 h3 h4 h5 h6
    simp [classify_browser, h1, h2, h3, h4, h5, h6]
  · intro h1 _h2
    constructor
    · simp [classify_browser, h1]
    · simp [classify_browser, h1]

theorem browsers_c4_witness :
    classify_browser "Mozilla/5.0 Chrome/99 Safari/537.36" = "Chrome" ∧
    classify_browser "Mozilla/5.0 Chrome/99 Safari/537.36" ≠ "Safari" :=
  (browsers_c4 "Mozilla/5.0 Chrome/99 Safari/537.36").2.2.2.2.2.2.2 (by decide) (by decide)

theorem load_filter_aux (c : String) (lines : List String) :
    (lines.filterMap (fun line =>
      match parse_log_line line with
      | some record => if strLt (recordDate record) c then none else some record
      | none => none)) =
    (lines.filterMap parse_log_line).filter (fun r => !strLt (recordDate r) c) := by
  induction lines with
  | nil => rfl
  | cons l ls ih =>
    rw [List.filterMap_cons, List.filterMap_cons]
    cases hp : parse_log_line l with
    | none => simpa using ih
    | some rec =>
      rw [List.filter_cons]
      by_cases hlt : strLt (recordDate rec) c
      · simp [hlt, ih]
      · simp [hlt, ih]

theorem load_nofilter_aux (lines : List String) :
    (lines.filterMap (fun line =>
      match parse_log_line line with
      | some record => some record
      | none => none)) = lines.filterMap parse_log_line := by
  congr 1
  funext line
  cases parse_log_line line <;> rfl

/-- C8 (amended): for a positive day window `d` the loader keeps exactly the
parser-accepted records whose date does not lexically precede the cutoff
`today_minus d`, and drops the ones that do; with no window there is no date
filtering, and likewise with a zero window (Python's `if days:` is false at
`0`, so `--days 0` performs no filtering). -/
theorem load_cutoff_c8 (today_minus : Nat → String) (lines : List String) (d : Nat)
    (hd : 0 < d) :
    load_lines today_minus (some d) lines =
      (lines.filterMap parse_log_line).filter
        (fun r => !strLt (recordDate r) (today_minus d)) ∧
    load_lines today_minus none lines = lines.filterMap parse_log_line ∧
    load_lines today_minus (some 0) lines = lines.filterMap parse_log_line := by
  have hd0 : ¬ d = 0 := by omega
  refine ⟨?_, ?_, ?_⟩
  · unfold load_lines
    simp only [if_neg hd0]
    exact load_filter_aux (today_minus d) lines
  · unfold load_lines
    exact load_nofilter_aux lines
  · unfold load_lines
    simp only [if_pos rfl]
    exact load_nofilter_aux lines

theorem load_cutoff_c8_witness :
    load_lines demo_today_minus (some 1) [demo_old_line] =
      ([demo_old_line].filterMap parse_log_line).filter
        (fun r => !strLt (recordDate r) (demo_today_minus 1)) ∧
    load_lines demo_today_minus none [demo_old_line] =
      [demo_old_line].filterMap parse_log_line ∧
    load_lines demo_today_minus (some 0) [demo_old_line] =
      [demo_old_line].filterMap parse_log_line :=
  load_cutoff_c8 demo_today_minus [demo_old_line] 1 (by decide)

/-- C8 counterexample: with the day window `0` the claimed cutoff is
`today_minus 0`, yet the loader keeps a record whose date lexically precedes
it — the code's `if days:` treats a zero window as "no window" and skips the
date filter entirely, so the claim fails at `N = 0`. -/
theorem load_cutoff_c8_counterexample :
    (load_lines demo_today_minus (some 0) [demo_old_line]).map recordDate = ["2020-01-01"] ∧
    strLt "2020-01-01" (demo_today_minus 0) = true := ⟨by decide, by decide⟩

theorem bnot_true {b : Bool} (h : (!b) = true) : b = false := by
  cases b
  · rfl
  · exact absurd h (by simp)

theorem bnot_intro {b : Bool} (h : b = false) : (!b) = true := by
  rw [h]
  rfl

theorem listLt_irrefl (l : List Char) : listLt l l = false := by
  induction l with
  | nil => rfl
  | cons c cs ih =>
    simp only [listLt, lt_self_iff_false, if_false]
    exact ih

theorem listLt_trans : ∀ a b c : List Char,
    listLt a b = true → listLt b c = true → listLt a c = true := by
  intro a
  induction a with
  | nil =>
    intro b c hab hbc
    cases b with
    | nil => exact absurd hab (by rw [listLt_irrefl]; simp)
    | cons x xs =>
      cases c with
      | nil => exact absurd hbc (by simp [listLt])
      | cons y ys => rfl
  | cons x xs ih =>
    intro b c hab hbc
    cases b with
    | nil => exact absurd hab (by simp [listLt])
    | cons y ys =>
      cases c with
      | nil => exact absurd hbc (by simp [listLt])
      | cons z zs =>
        simp only [listLt] at hab hbc ⊢
        rcases lt_trichotomy x y with hxy | hxy | hxy
        · rcases lt_trichotomy y z with hyz | hyz | hyz
          · rw [if_pos (lt_trans hxy hyz)]
          · subst hyz
            rw [if_pos hxy]
          · rw [if_neg (lt_asymm hyz), if_pos hyz] at hbc
            exact absurd hbc (by simp)
        · subst hxy
          rw [if_neg (lt_irrefl x), if_neg (lt_irrefl x)] at hab
          rcases lt_trichotomy x z with hxz | hxz | hxz
          · rw [if_pos hxz]
          · subst hxz
            rw [if_neg (lt_irrefl x), if_neg (lt_irrefl x)] at hbc ⊢
            exact ih ys zs hab hbc
          · rw [if_neg (lt_asymm hxz), if_pos hxz] at hbc
            exact absurd hbc (by simp)
        · rw [if_neg (lt_asymm hxy), if_pos hxy] at hab
          exact absurd hab (by simp)

theorem listLt_trichotomy : ∀ a b : List Char,
    listLt a b = true ∨ a = b ∨ listLt b a = true := by
  intro a
  induction a with
  | nil =>
    intro b
    cases b with
    | nil => exact Or.inr (Or.inl rfl)
    | cons y ys => exact Or.inl rfl
  | cons x xs ih =>
    intro b
    cases b with
    | nil => exact Or.inr (Or.inr rfl)
    | cons y ys =>
      rcases lt_trichotomy x y with hxy | hxy | hxy
      · left
        simp only [listLt]
        rw [if_pos hxy]
      · subst hxy
        rcases ih ys with h | h | h
        · left
          simp only [listLt]
          rw [if_neg (lt_irrefl x), if_neg (lt_irrefl x)]
          exact h
        · exact Or.inr (Or.inl (by rw [h]))
        · right; right
          simp only [listLt]
          rw [if_neg (lt_irrefl x), if_neg (lt_irrefl x)]
          exact h
      · right; right
        simp only [listLt]
        rw [if_pos hxy]

theorem strLt_irrefl (a : String) : strLt a a = false := listLt_irrefl a.data

theorem strLt_trans {a b c : String} (h1 : strLt a b = true) (h2 : strLt b c = true) :
    strLt a c = true := listLt_trans a.data b.data c.data h1 h2

theorem strLt_trichotomy (a b : String) : strLt a b = true ∨ a = b ∨ strLt b a = true := by
  rcases listLt_trichotomy a.data b.data with h | h | h
  · exact Or.inl h
  · exact Or.inr (Or.inl (String.ext h))
  · exact Or.inr (Or.inr h)

theorem strLt_asymm {a b : String} (h : strLt a b = true) : strLt b a = false := by
  by_contra hba
  rw [Bool.not_eq_false] at hba
  have h2 := strLt_trans h hba
  rw [strLt_irrefl] at h2
  exact absurd h2 (by simp)

theorem strLt_false_trans {a b c : String} (hab : strLt b a = false)
    (hbc : strLt c b = false) : strLt c a = false := by
  by_contra hca
  rw [Bool.not_eq_false] at hca
  rcases strLt_trichotomy a b with h1 | h1 | h1
  · have h2 := strLt_trans hca h1
    simp [h2] at hbc
  · subst h1
    simp [hca] at hbc
  · simp [h1] at hab

theorem insertDesc_perm (le : α → α → Bool) (x : α) (l : List α) :
    (insertDesc le x l).Perm (x :: l) := by
  induction l with
  | nil => exact List.Perm.refl _
  | cons y ys ih =>
    rw [insertDesc]
    by_cases h : le x y
    · rw [if_pos h]
    · rw [if_neg h]
      exact (ih.cons y).trans (List.Perm.swap x y ys)

theorem sortStable_perm (le : α → α → Bool) (l : List α) : (sortStable le l).Perm l := by
  induction l with
  | nil => exact List.Perm.refl _
  | cons x xs ih =>
    rw [sortStable]
    exact (insertDesc_perm le x (sortStable le xs)).trans (ih.cons x)

theorem insertDesc_pairwise (le : α → α → Bool)
    (htrans : ∀ a b c, le a b = true → le b c = true → le a c = true)
    (htot : ∀ a b, le a b = true ∨ le b a = true)
    (x : α) (l : List α) (hl : l.Pairwise (fun a b => le a b = true)) :
    (insertDesc le x l).Pairwise (fun a b => le a b = true) := by
  induction l with
  | nil => simp [insertDesc]
  | cons y ys ih =>
    rw [insertDesc]
    rw [List.pairwise_cons] at hl
    obtain ⟨hy, hys⟩ := hl
    by_cases h : le x y
    · rw [if_pos h]
      refine List.pairwise_cons.mpr ⟨?_, List.pairwise_cons.mpr ⟨hy, hys⟩⟩
      intro z hz
      rcases List.mem_cons.mp hz with he | hz'
      · rw [he]
        exact h
      · exact htrans x y z h (hy z hz')
    · rw [if_neg h]
      refine List.pairwise_cons.mpr ⟨?_, ih hys⟩
      intro z hz
      have hz' := (insertDesc_perm le x ys).mem_iff.mp hz
      rcases List.mem_cons.mp hz' with he | hz'
      · rw [he]
        rcases htot x y with h1 | h1
        · exact absurd h1 h
        · exact h1
      · exact hy z hz'

theorem sortStable_pairwise (le : α → α → Bool)
    (htrans : ∀ a b c, le a b = true → le b c = true → le a c = true)
    (htot : ∀ a b, le a b = true ∨ le b a = true)
    (l : List α) :
    (sortStable le l).Pairwise (fun a b => le a b = true) := by
  induction l with
  | nil => simp [sortStable]
  | cons x xs ih =>
    rw [sortStable]
    exact insertDesc_pairwise le htrans htot x _ ih

theorem insertDesc_pairwise_R {R : α → α → Prop} (le : α → α → Bool)
    (hle : ∀ a b, le a b = false → R b a)
    (x : α) (l : List α) (hx : ∀ y ∈ l, R x y) (hl : l.Pairwise R) :
    (insertDesc le x l).Pairwise R := by
  induction l with
  | nil => simp [insertDesc]
  | cons y ys ih =>
    rw [insertDesc]
    rw [List.pairwise_cons] at hl
    obtain ⟨hy, hys⟩ := hl
    by_cases h : le x y
    · rw [if_pos h]
      refine List.pairwise_cons.mpr ⟨?_, List.pairwise_cons.mpr ⟨hy, hys⟩⟩
      intro z hz
      exact hx z hz
    · rw [if_neg h]
      refine List.pairwise_cons.mpr ⟨?_, ?_⟩
      · intro z hz
        have hz' := (insertDesc_perm le x ys).mem_iff.mp hz
        rcases List.mem_cons.mp hz' with he | hz'
        · rw [he]
          exact hle x y (Bool.eq_false_iff.mpr h)
        · exact hy z hz'
      · refine ih ?_ hys
        intro z hz
        exact hx z (List.mem_cons.mpr (Or.inr hz))

theorem sortStable_pairwise_R {R : α → α → Prop} (le : α → α → Bool)
    (hle : ∀ a b, le a b = false → R b a)
    (l : List α) (hl : l.Pairwise R) :
    (sortStable le l).Pairwise R := by
  induction l with
  | nil => simp [sortStable]
  | cons x xs ih =>
    rw [sortStable]
    rw [List.pairwise_cons] at hl
    obtain ⟨hx, hxs⟩ := hl
    refine insertDesc_pairwise_R le hle x _ ?_ (ih hxs)
    intro y hy
    exact hx y ((sortStable_perm le xs).mem_iff.mp hy)

theorem firstIdx_append_left (ks l : List String) (k : String) (h : k ∈ ks) :
    firstIdx (ks ++ l) k = firstIdx ks k := by
  induction ks with
  | nil => exact absurd h (List.not_mem_nil k)
  | cons a ks ih =>
    by_cases ha : a = k
    · simp [firstIdx, ha]
    · have h' : k ∈ ks := by
        rcases List.mem_cons.mp h with he | h'
        · exact absurd he.symm ha
        · exact h'
      simp [firstIdx, ha, ih h']

theorem firstIdx_lt_length (ks : List String) (k : String) (h : k ∈ ks) :
    firstIdx ks k < ks.length := by
  induction ks with
  | nil => exact absurd h (List.not_mem_nil k)
  | cons a ks ih =>
    by_cases ha : a = k
    · simp [firstIdx, ha]
    · have h' : k ∈ ks := by
        rcases List.mem_cons.mp h with he | h'
        · exact absurd he.symm ha
        · exact h'
      simp only [firstIdx, if_neg ha, List.length_cons]
      exact Nat.succ_lt_succ (ih h')

theorem firstIdx_append_self (ks : List String) (k : String) (h : k ∉ ks) :
    firstIdx (ks ++ [k]) k = ks.length := by
  induction ks with
  | nil => simp [firstIdx]
  | cons a ks ih =>
    have ha : ¬ a = k := fun e => h (List.mem_cons.mpr (Or.inl e.symm))
    have h' : k ∉ ks := fun hk => h (List.mem_cons.mpr (Or.inr hk))
    simp [firstIdx, ha, ih h']

theorem updAssoc_map_fst (k : String) (i : β) (u : β → β) (l : List (String × β)) :
    (updAssoc k i u l).map Prod.fst =
      if k ∈ l.map Prod.fst then l.map Prod.fst else l.map Prod.fst ++ [k] := by
  induction l with
  | nil => simp [updAssoc]
  | cons p l ih =>
    obtain ⟨k', v⟩ := p
    simp only [updAssoc]
    by_cases hk : k' = k
    · rw [if_pos hk]
      subst hk
      simp only [List.map_cons]
      rw [if_pos (List.mem_cons_self _ _)]
    · rw [if_neg hk]
      simp only [List.map_cons, ih]
      by_cases hm : k ∈ l.map Prod.fst
      · rw [if_pos hm, if_pos (List.mem_cons.mpr (Or.inr hm))]
      · have hnc : ¬ k ∈ (k' :: l.map Prod.fst) := by
          intro hc
          rcases List.mem_cons.mp hc with he | hm'
          · exact hk he.symm
          · exact hm hm'
        rw [if_neg hm, if_neg hnc, List.cons_append]

theorem groupFold_snoc (key : α → String) (ini : α → β) (upd : α → β → β)
    (l : List α) (a : α) :
    groupFold key ini upd (l ++ [a]) =
      updAssoc (key a) (ini a) (upd a) (groupFold key ini upd l) := by
  unfold groupFold
  rw [List.foldl_append]
  rfl

theorem groupFold_fst_spec (key : α → String) (ini : α → β) (upd : α → β → β)
    (l : List α) :
    ((groupFold key ini upd l).map Prod.fst).Pairwise
      (fun x y => firstIdx (l.map key) x < firstIdx (l.map key) y) ∧
    (∀ x, x ∈ (groupFold key ini upd l).map Prod.fst ↔ x ∈ l.map key) := by
  induction l using List.reverseRecOn with
  | nil => simp [groupFold]
  | append_singleton l a ih =>
    obtain ⟨ihp, ihm⟩ := ih
    rw [groupFold_snoc, updAssoc_map_fst, List.map_append, List.map_singleton]
    by_cases hm : key a ∈ (groupFold key ini upd l).map Prod.fst
    · rw [if_pos hm]
      have hka : key a ∈ l.map key := (ihm (key a)).mp hm
      constructor
      · refine ihp.imp_of_mem ?_
        intro x y hx hy hr
        rw [firstIdx_append_left _ _ _ ((ihm x).mp hx),
            firstIdx_append_left _ _ _ ((ihm y).mp hy)]
        exact hr
      · intro x
        rw [ihm x]
        constructor
        · intro hx
          exact List.mem_append.mpr (Or.inl hx)
        · intro hx
          rcases List.mem_append.mp hx with hx | hx
          · exact hx
          · have he := List.mem_singleton.mp hx
            rw [he]
            exact hka
    · rw [if_neg hm]
      have hka : ¬ key a ∈ l.map key := fun hh => hm ((ihm (key a)).mpr hh)
      constructor
      · rw [List.pairwise_append]
        refine ⟨?_, ?_, ?_⟩
        · refine ihp.imp_of_mem ?_
          intro x y hx hy hr
          rw [firstIdx_append_left _ _ _ ((ihm x).mp hx),
              firstIdx_append_left _ _ _ ((ihm y).mp hy)]
          exact hr
        · simp
        · intro x hx y hy
          have hx' : x ∈ l.map key := (ihm x).mp hx
          have he := List.mem_singleton.mp hy
          rw [he, firstIdx_append_left _ _ _ hx', firstIdx_append_self _ _ hka]
          exact firstIdx_lt_length _ _ hx'
      · intro x
        constructor
        · intro hx
          rcases List.mem_append.mp hx with hx | hx
          · exact List.mem_append.mpr (Or.inl ((ihm x).mp hx))
          · exact List.mem_append.mpr (Or.inr hx)
        · intro hx
          rcases List.mem_append.mp hx with hx | hx
          · exact List.mem_append.mpr (Or.inl ((ihm x).mpr hx))
          · exact List.mem_append.mpr (Or.inr hx)

theorem groupFold_fst_nodup (key : α → String) (ini : α → β) (upd : α → β → β)
    (l : List α) :
    ((groupFold key ini upd l).map Prod.fst).Nodup := by
  have h := (groupFold_fst_spec key ini upd l).1
  refine h.imp ?_
  intro x y hr he
  rw [he] at hr
  exact lt_irrefl _ hr

theorem updAssoc_sum (f : β → Nat) (k : String) (i : β) (u : β → β)
    (hi : f i = 1) (hu : ∀ b, f (u b) = f b + 1) (l : List (String × β)) :
    ((updAssoc k i u l).map (fun p => f p.2)).sum = (l.map (fun p => f p.2)).sum + 1 := by
  induction l with
  | nil => simp [updAssoc, hi]
  | cons p l ih =>
    obtain ⟨k', v⟩ := p
    simp only [updAssoc]
    by_cases hk : k' = k
    · rw [if_pos hk]
      simp only [List.map_cons, List.sum_cons, hu v]
      omega
    · rw [if_neg hk]
      simp only [List.map_cons, List.sum_cons, ih]
      omega

theorem groupFold_sum_aux (key : α → String) (ini : α → β) (upd : α → β → β)
    (f : β → Nat) (hi : ∀ a, f (ini a) = 1) (hu : ∀ a b, f (upd a b) = f b + 1) :
    ∀ (l : List α) (acc : List (String × β)),
      ((l.foldl (fun acc a => updAssoc (key a) (ini a) (upd a) acc) acc).map
        (fun p => f p.2)).sum = (acc.map (fun p => f p.2)).sum + l.length := by
  intro l
  induction l with
  | nil =>
    intro acc
    simp
  | cons a l ih =>
    intro acc
    rw [List.foldl_cons, ih, updAssoc_sum f (key a) (ini a) (upd a) (hi a) (hu a) acc]
    simp only [List.length_cons]
    omega

theorem groupFold_sum (key : α → String) (ini : α → β) (upd : α → β → β)
    (f : β → Nat) (hi : ∀ a, f (ini a) = 1) (hu : ∀ a b, f (upd a b) = f b + 1)
    (l : List α) :
    ((groupFold key ini upd l).map (fun p => f p.2)).sum = l.length := by
  have h := groupFold_sum_aux key ini upd f hi hu l []
  simpa [groupFold] using h

theorem pySet_length_le_aux :
    ∀ (l acc : List String),
      (l.foldl (fun s a => if a ∈ s then s else a :: s) acc).length ≤ acc.length + l.length := by
  intro l
  induction l with
  | nil =>
    intro acc
    simp
  | cons a l ih =>
    intro acc
    rw [List.foldl_cons]
    by_cases h : a ∈ acc
    · rw [if_pos h]
      have hh := ih acc
      simp only [List.length_cons]
      omega
    · rw [if_neg h]
      have hh := ih (a :: acc)
      simp only [List.length_cons] at hh ⊢
      omega

theorem uniqueCount_le (l : List String) : uniqueCount l ≤ l.length := by
  have h := pySet_length_le_aux l []
  simpa [uniqueCount, pySet] using h

theorem uniqueCount_map_le (f : Record → String) (l : List Record) :
    uniqueCount (l.map f) ≤ l.length := by
  calc uniqueCount (l.map f) ≤ (l.map f).length := uniqueCount_le _
    _ = l.length := List.length_map _ _

theorem analyze_logs_ok {records : List Record} (h : records ≠ []) :
    analyze_logs records = AnalyzeResult.ok (buildReport records) := by
  cases records with
  | nil => exact absurd rfl h
  | cons r rs => rfl

theorem countDesc_sorted (l : List (String × Nat)) :
    (countDesc l).Pairwise (fun a b => b.2 ≤ a.2) := by
  have htrans : ∀ a b c : String × Nat, decide (b.2 ≤ a.2) = true →
      decide (c.2 ≤ b.2) = true → decide (c.2 ≤ a.2) = true := by
    intro a b c hab hbc
    exact decide_eq_true (le_trans (of_decide_eq_true hbc) (of_decide_eq_true hab))
  have htot : ∀ a b : String × Nat, decide (b.2 ≤ a.2) = true ∨ decide (a.2 ≤ b.2) = true := by
    intro a b
    rcases Nat.le_total b.2 a.2 with hh | hh
    · exact Or.inl (decide_eq_true hh)
    · exact Or.inr (decide_eq_true hh)
  have hp := sortStable_pairwise (fun a b : String × Nat => decide (b.2 ≤ a.2)) htrans htot l
  exact hp.imp (fun hr => of_decide_eq_true hr)

theorem top_pages_ties (records : List Record) :
    (top_pages_of records).Pairwise (fun a b => a.2 = b.2 →
      firstIdx (records.map Record.uri_stem) a.1 < firstIdx (records.map Record.uri_stem) b.1) := by
  unfold top_pages_of
  refine List.Pairwise.sublist (List.take_sublist _ _) ?_
  unfold countDesc
  apply sortStable_pairwise_R
  · intro a b hab he
    have hlt : a.2 < b.2 := Nat.lt_of_not_le (of_decide_eq_false hab)
    omega
  · have hp := (groupFold_fst_spec Record.uri_stem (fun _ => 1) (fun _ n => n + 1) records).1
    rw [List.pairwise_map] at hp
    refine List.Pairwise.imp ?_ hp
    intro a b hr _he
    exact hr

/-- C5: the top-pages list of the report has at most 15 entries, its counts
are non-increasing, and entries with equal counts are ordered by the first
encounter of their path group in the record sequence (stable sort on
descending count over first-encounter-ordered groups). -/
theorem top_pages_c5 (records : List Record) (h : records ≠ []) :
    analyze_logs records = AnalyzeResult.ok (buildReport records) ∧
    (buildReport records).top_pages.length ≤ 15 ∧
    (buildReport records).top_pages.Pairwise (fun a b => b.2 ≤ a.2) ∧
    (buildReport records).top_pages.Pairwise (fun a b => a.2 = b.2 →
      firstIdx (records.map Record.uri_stem) a.1 <
      firstIdx (records.map Record.uri_stem) b.1) := by
  refine ⟨analyze_logs_ok h, ?_, ?_, ?_⟩
  · show (top_pages_of records).length ≤ 15
    exact List.length_take_le _ _
  · show (top_pages_of records).Pairwise (fun a b => b.2 ≤ a.2)
    unfold top_pages_of
    exact List.Pairwise.sublist (List.take_sublist _ _) (countDesc_sorted _)
  · exact top_pages_ties records

theorem top_pages_c5_witness :
    analyze_logs demo_records = AnalyzeResult.ok (buildReport demo_records) ∧
    (buildReport demo_records).top_pages.length ≤ 15 ∧
    (buildReport demo_records).top_pages.Pairwise (fun a b => b.2 ≤ a.2) ∧
    (buildReport demo_records).top_pages.Pairwise (fun a b => a.2 = b.2 →
      firstIdx (demo_records.map Record.uri_stem) a.1 <
      firstIdx (demo_records.map Record.uri_stem) b.1) :=
  top_pages_c5 demo_records (by decide)

theorem dailyLe_trans : ∀ a b c : String × Nat × List String,
    (!strLt b.1 a.1) = true → (!strLt c.1 b.1) = true → (!strLt c.1 a.1) = true := by
  intro a b c hab hbc
  exact bnot_intro (strLt_false_trans (bnot_true hab) (bnot_true hbc))

theorem dailyLe_total : ∀ a b : String × Nat × List String,
    (!strLt b.1 a.1) = true ∨ (!strLt a.1 b.1) = true := by
  intro a b
  rcases strLt_trichotomy a.1 b.1 with h | h | h
  · exact Or.inl (bnot_intro (strLt_asymm h))
  · refine Or.inl (bnot_intro ?_)
    rw [h]
    exact strLt_irrefl b.1
  · exact Or.inr (bnot_intro (strLt_asymm h))

theorem daily_stats_keys (records : List Record) :
    (daily_stats_of records).map Prod.fst =
      (sortStable (fun a b => !strLt b.1 a.1) (dailyTraffic records)).map Prod.fst := by
  unfold daily_stats_of
  rw [List.map_map]
  rfl

theorem daily_keys_perm (records : List Record) :
    ((sortStable (fun a b => !strLt b.1 a.1) (dailyTraffic records)).map Prod.fst).Perm
      ((dailyTraffic records).map Prod.fst) :=
  (sortStable_perm _ _).map _

theorem daily_mem (records : List Record) :
    ∀ d, d ∈ (daily_stats_of records).map Prod.fst ↔ d ∈ records.map Record.date := by
  intro d
  rw [daily_stats_keys, (daily_keys_perm records).mem_iff]
  exact (groupFold_fst_spec Record.date dailyIni dailyUpd records).2 d

theorem daily_sorted (records : List Record) :
    ((daily_stats_of records).map Prod.fst).Pairwise (fun x y => strLt x y = true) := by
  rw [daily_stats_keys]
  have hs := sortStable_pairwise (fun a b : String × Nat × List String => !strLt b.1 a.1)
      dailyLe_trans dailyLe_total (dailyTraffic records)
  have hkeys : ((sortStable (fun a b => !strLt b.1 a.1) (dailyTraffic records)).map
      Prod.fst).Pairwise (fun x y => strLt y x = false) := by
    rw [List.pairwise_map]
    exact hs.imp (fun hr => bnot_true hr)
  have hnodup : ((sortStable (fun a b => !strLt b.1 a.1) (dailyTraffic records)).map
      Prod.fst).Nodup :=
    (daily_keys_perm records).symm.nodup
      (groupFold_fst_nodup Record.date dailyIni dailyUpd records)
  have hne : ((sortStable (fun a b => !strLt b.1 a.1) (dailyTraffic records)).map
      Prod.fst).Pairwise (fun x y => x ≠ y) := hnodup
  have hcomb := hkeys.and hne
  refine hcomb.imp ?_
  intro x y hxy
  obtain ⟨h1, h2⟩ := hxy
  rcases strLt_trichotomy x y with hh | hh | hh
  · exact hh
  · exact absurd hh h2
  · simp [hh] at h1

theorem daily_sum (records : List Record) :
    ((daily_stats_of records).map (fun p => p.2.1)).sum = records.length := by
  have h1 : ((daily_stats_of records).map (fun p => p.2.1)) =
      (sortStable (fun a b => !strLt b.1 a.1) (dailyTraffic records)).map (fun p => p.2.1) := by
    unfold daily_stats_of
    rw [List.map_map]
    rfl
  rw [h1]
  have hperm : ((sortStable (fun a b => !strLt b.1 a.1) (dailyTraffic records)).map
      (fun p => p.2.1)).Perm ((dailyTraffic records).map (fun p => p.2.1)) :=
    (sortStable_perm _ _).map _
  rw [hperm.sum_eq]
  exact groupFold_sum Record.date dailyIni dailyUpd Prod.fst (fun _ => rfl) (fun _ _ => rfl)
    records

/-- C9: the keys of daily_stats are exactly the distinct date values of the
records in strictly ascending lexical order, and the per-date request counts
sum to the summary's total_requests. -/
theorem daily_stats_c9 (records : List Record) (h : records ≠ []) :
    analyze_logs records = AnalyzeResult.ok (buildReport records) ∧
    ((buildReport records).daily_stats.map Prod.fst).Pairwise (fun x y => strLt x y = true) ∧
    (∀ d, d ∈ (buildReport records).daily_stats.map Prod.fst ↔ d ∈ records.map Record.date) ∧
    ((buildReport records).daily_stats.map (fun p => p.2.1)).sum =
      (buildReport records).total_requests := by
  refine ⟨analyze_logs_ok h, ?_, ?_, ?_⟩
  · exact daily_sorted records
  · exact daily_mem records
  · show ((daily_stats_of records).map (fun p => p.2.1)).sum = records.length
    exact daily_sum records

theorem daily_stats_c9_witness :
    analyze_logs demo_records = AnalyzeResult.ok (buildReport demo_records) ∧
    ((buildReport demo_records).daily_stats.map Prod.fst).Pairwise
      (fun x y => strLt x y = true) ∧
    (∀ d, d ∈ (buildReport demo_records).daily_stats.map Prod.fst ↔
      d ∈ demo_records.map Record.date) ∧
    ((buildReport demo_records).daily_stats.map (fun p => p.2.1)).sum =
      (buildReport demo_records).total_requests :=
  daily_stats_c9 demo_records (by decide)

/-- C10: every unique-visitor count in the report is at most its
corresponding total: summary, homepage, event details, and visit-store
clicks. -/
theorem unique_le_total_c10 (records : List Record) (h : records ≠ []) :
    analyze_logs records = AnalyzeResult.ok (buildReport records) ∧
    (buildReport records).unique_visitors ≤ (buildReport records).total_requests ∧
    (buildReport records).homepage_unique ≤ (buildReport records).homepage_total ∧
    (buildReport records).event_details_unique ≤ (buildReport records).event_details_total ∧
    (buildReport records).visit_store_unique ≤ (buildReport records).visit_store_total := by
  refine ⟨analyze_logs_ok h, ?_, ?_, ?_, ?_⟩
  · show uniqueCount (records.map get_visitor_id) ≤ records.length
    exact uniqueCount_map_le _ _
  · exact uniqueCount_map_le _ _
  · exact uniqueCount_map_le _ _
  · exact uniqueCount_map_le _ _

theorem unique_le_total_c10_witness :
    analyze_logs demo_records = AnalyzeResult.ok (buildReport demo_records) ∧
    (buildReport demo_records).unique_visitors ≤ (buildReport demo_records).total_requests ∧
    (buildReport demo_records).homepage_unique ≤ (buildReport demo_records).homepage_total ∧
    (buildReport demo_records).event_details_unique ≤
      (buildReport demo_records).event_details_total ∧
    (buildReport demo_records).visit_store_unique ≤
      (buildReport demo_records).visit_store_total :=
  unique_le_total_c10 demo_records (by decide)

/-- C7 (amended): the aggregator's external-clicks section always carries the
visit-store counts; when no record path matches the visit/register pattern
the counts are present with value zero and the explanatory note is set (the
table renderer then prints the note in place of the counts), and when at
least one such record exists the counts are the total and unique-visitor
counts and the note is absent. -/
theorem external_clicks_c7 (records : List Record) (h : records ≠ []) :
    analyze_logs records = AnalyzeResult.ok (buildReport records) ∧
    (records.filter (fun r => visit_match r.uri_stem) = [] →
      (buildReport records).external_clicks_note = some "Requires /visit tracking endpoint" ∧
      (buildReport records).visit_store_total = 0 ∧
      (buildReport records).visit_store_unique = 0) ∧
    (records.filter (fun r => visit_match r.uri_stem) ≠ [] →
      (buildReport records).external_clicks_note = none ∧
      (buildReport records).visit_store_total =
        (records.filter (fun r => visit_match r.uri_stem)).length ∧
      (buildReport records).visit_store_unique =
        uniqueCount ((records.filter (fun r => visit_match r.uri_stem)).map get_visitor_id)) := by
  refine ⟨analyze_logs_ok h, ?_, ?_⟩
  · intro hv
    refine ⟨?_, ?_, ?_⟩
    · show (if (records.filter (fun r => visit_match r.uri_stem)).isEmpty then
          some "Requires /visit tracking endpoint" else none) =
          some "Requires /visit tracking endpoint"
      rw [hv]
      rfl
    · show (records.filter (fun r => visit_match r.uri_stem)).length = 0
      rw [hv]
      rfl
    · show uniqueCount ((records.filter (fun r => visit_match r.uri_stem)).map
        get_visitor_id) = 0
      rw [hv]
      rfl
  · intro hv
    refine ⟨?_, rfl, rfl⟩
    show (if (records.filter (fun r => visit_match r.uri_stem)).isEmpty then
        some "Requires /visit tracking endpoint" else none) = none
    rw [if_neg (fun hc => hv (List.isEmpty_iff.mp hc))]

theorem external_clicks_c7_witness :
    analyze_logs [demo_rec_visit] = AnalyzeResult.ok (buildReport [demo_rec_visit]) ∧
    ([demo_rec_visit].filter (fun r => visit_match r.uri_stem) = [] →
      (buildReport [demo_rec_visit]).external_clicks_note =
        some "Requires /visit tracking endpoint" ∧
      (buildReport [demo_rec_visit]).visit_store_total = 0 ∧
      (buildReport [demo_rec_visit]).visit_store_unique = 0) ∧
    ([demo_rec_visit].filter (fun r => visit_match r.uri_stem) ≠ [] →
      (buildReport [demo_rec_visit]).external_clicks_note = none ∧
      (buildReport [demo_rec_visit]).visit_store_total =
        ([demo_rec_visit].filter (fun r => visit_match r.uri_stem)).length ∧
      (buildReport [demo_rec_visit]).visit_store_unique =
        uniqueCount (([demo_rec_visit].filter (fun r => visit_match r.uri_stem)).map
          get_visitor_id)) :=
  external_clicks_c7 [demo_rec_visit] (by decide)

/-- C7 counterexample: on a record sequence with zero visit/register records
the external-clicks section still contains the total and unique-visitor
counts (with value zero) alongside the note — the aggregator does not replace
the counts with the note; only the table renderer displays the note instead. -/
theorem external_clicks_c7_counterexample :
    (buildReport [demo_rec1]).external_clicks_note =
      some "Requires /visit tracking endpoint" ∧
    (buildReport [demo_rec1]).visit_store_total = 0 ∧
    (buildReport [demo_rec1]).visit_store_unique = 0 ∧
    [demo_rec1].filter (fun r => visit_match r.uri_stem) = [] := by
  refine ⟨?_, ?_, ?_, ?_⟩ <;> decide
